import Mathlib

/-!
Verification development for the stake-activation engine of the
solana-developers/helpers repository.

The embedding follows `src/delegation.ts` (history lookup, the two
epoch-stepped walks of `getStakeAndActivating` and
`getStakeActivatingAndDeactivating`) and the post-fetch part of
`src/rpc.ts` (`getStakeActivation`).

TypeScript `bigint` values are embedded as `Int` (arbitrary-precision
signed integers, exactly the semantics of `bigint`).  The
double-precision (`Number`) arithmetic of the weight computation is
embedded as exact rational arithmetic composed with `roundToDouble`,
which rounds a rational to the IEEE-754 binary64 grid (round to
nearest, ties to even) for values in the normal range.  Overflow to
infinity (magnitudes beyond 2^1024) and subnormal underflow
(magnitudes below 2^-1022) are outside the range reachable from
unsigned 64-bit inputs and are not modelled; a division whose
denominator converts to the double 0.0 yields a non-finite value in
JavaScript and makes the subsequent `BigInt(...)` conversion throw,
which is modelled by `Option`/`Except` error results.
-/

/-- Base-two logarithm (floor) of a positive rational: the unique `d`
with `2 ^ d ≤ x < 2 ^ (d + 1)`.  Computed from `Nat.log2` of the
numerator and denominator, which brackets the result within one. -/
def ratLog2 (x : ℚ) : ℤ :=
  let d : ℤ := (Nat.log2 x.num.natAbs : ℤ) - (Nat.log2 x.den : ℤ)
  if (2 : ℚ) ^ d ≤ x then d else d - 1

/-- Round a rational to an integer, to nearest with ties to even. -/
def roundHalfEven (q : ℚ) : ℤ :=
  let f := ⌊q⌋
  let r := q - (f : ℚ)
  if r < 1 / 2 then f
  else if 1 / 2 < r then f + 1
  else if f % 2 = 0 then f else f + 1

/-- Round a positive rational to the binary64 grid: a 53-bit mantissa
scaled by a power of two, rounding to nearest with ties to even. -/
def posRound (x : ℚ) : ℚ :=
  let e : ℤ := ratLog2 x - 52
  (roundHalfEven (x / 2 ^ e) : ℚ) * 2 ^ e

/-- Round a rational to the nearest IEEE-754 binary64 value (normal
range; ties to even).  This models the result of any JavaScript
double operation whose exact value is the given rational. -/
def roundToDouble (x : ℚ) : ℚ :=
  if x = 0 then 0
  else if x < 0 then -(posRound (-x))
  else posRound x

/-- JavaScript `Number(n)` for a `bigint` `n`: the nearest double. -/
def toNumber (n : ℤ) : ℚ := roundToDouble (n : ℚ)

/-- JavaScript `Math.round` on a (finite) double: round to nearest
integer, ties toward positive infinity. -/
def jsRound (q : ℚ) : ℤ := ⌊q + 1 / 2⌋

/-- The constant `WARMUP_COOLDOWN_RATE = 0.09` of `delegation.ts`,
line 3, as the binary64 value denoted by the literal `0.09`. -/
def WARMUP_COOLDOWN_RATE : ℚ := roundToDouble (9 / 100)

/-- One stake history entry (`StakeHistoryEntry`, `stake.ts`): all
fields are unsigned 64-bit on-chain, decoded into `bigint`. -/
structure StakeHistoryEntry where
  epoch : ℤ
  effective : ℤ
  activating : ℤ
  deactivating : ℤ
deriving DecidableEq, Repr

/-- The `Delegation` record of `stake.ts` (the 32-byte voter key is
kept as an opaque byte list; it never influences the computation). -/
structure Delegation where
  voterPubkey : List ℕ
  stake : ℤ
  activationEpoch : ℤ
  deactivationEpoch : ℤ
  unused : ℤ
deriving DecidableEq, Repr

/-- Result record of the activation phase (`EffectiveAndActivating`,
`delegation.ts` lines 11-14). -/
structure EffectiveAndActivating where
  effective : ℤ
  activating : ℤ
deriving DecidableEq, Repr

/-- Result record of the engine (`StakeActivatingAndDeactivating`,
`delegation.ts` lines 5-9). -/
structure StakeActivatingAndDeactivating where
  effective : ℤ
  activating : ℤ
  deactivating : ℤ
deriving DecidableEq, Repr

/-- History lookup (`getStakeHistoryEntry`, `delegation.ts` lines
16-26): first entry whose `epoch` field equals the requested epoch. -/
def getStakeHistoryEntry (epoch : ℤ) (stakeHistory : List StakeHistoryEntry) :
    Option StakeHistoryEntry :=
  match stakeHistory with
  | [] => none
  | entry :: rest =>
    if entry.epoch = epoch then some entry
    else getStakeHistoryEntry epoch rest

/-- The per-iteration share computation of both walks (`delegation.ts`
lines 63-69 and 141-148): in double arithmetic,
`weight = numerator / denominator`,
`clusterPortion = clusterEffective * WARMUP_COOLDOWN_RATE`, and the
step is `BigInt(Math.max(1, Math.round(weight * clusterPortion)))`.
When the denominator converts to the double 0.0 the division is
non-finite and the `BigInt` conversion throws, modelled as `none`. -/
def stakeShareDelta (numerator denominator clusterEffective : ℤ) : Option ℤ :=
  let den := toNumber denominator
  if den = 0 then none
  else
    let weight := roundToDouble (toNumber numerator / den)
    let clusterPortion := roundToDouble (toNumber clusterEffective * WARMUP_COOLDOWN_RATE)
    some (max 1 (jsRound (roundToDouble (weight * clusterPortion))))

/-- The activation walk (`delegation.ts` lines 61-84): starting from
the entry found at the activation epoch, add the per-epoch share,
clamping at the full stake, and stop on reaching the target epoch,
the deactivation epoch, or a missing history entry. -/
def activationLoop (stake deactivationEpoch targetEpoch : ℤ)
    (stakeHistory : List StakeHistoryEntry)
    (currentEpoch : ℤ) (entry : StakeHistoryEntry)
    (currentEffectiveStake : ℤ) : Except Unit ℤ :=
  match stakeShareDelta (stake - currentEffectiveStake) entry.activating entry.effective with
  | none => Except.error ()
  | some newlyEffectiveStake =>
    if stake ≤ currentEffectiveStake + newlyEffectiveStake then Except.ok stake
    else if targetEpoch ≤ currentEpoch + 1 ∨ deactivationEpoch ≤ currentEpoch + 1 then
      Except.ok (currentEffectiveStake + newlyEffectiveStake)
    else
      match getStakeHistoryEntry (currentEpoch + 1) stakeHistory with
      | none => Except.ok (currentEffectiveStake + newlyEffectiveStake)
      | some nextEntry =>
        activationLoop stake deactivationEpoch targetEpoch stakeHistory
          (currentEpoch + 1) nextEntry (currentEffectiveStake + newlyEffectiveStake)
termination_by (targetEpoch - currentEpoch).toNat
decreasing_by omega

/-- Phase A (`getStakeAndActivating`, `delegation.ts` lines 28-96). -/
def getStakeAndActivating (delegation : Delegation) (targetEpoch : ℤ)
    (stakeHistory : List StakeHistoryEntry) : Except Unit EffectiveAndActivating :=
  if delegation.activationEpoch = delegation.deactivationEpoch then
    Except.ok ⟨0, 0⟩
  else if targetEpoch = delegation.activationEpoch then
    Except.ok ⟨0, delegation.stake⟩
  else if targetEpoch < delegation.activationEpoch then
    Except.ok ⟨0, 0⟩
  else
    match getStakeHistoryEntry delegation.activationEpoch stakeHistory with
    | some entry =>
      match activationLoop delegation.stake delegation.deactivationEpoch targetEpoch
          stakeHistory delegation.activationEpoch entry 0 with
      | Except.error e => Except.error e
      | Except.ok currentEffectiveStake =>
        Except.ok ⟨currentEffectiveStake, delegation.stake - currentEffectiveStake⟩
    | none => Except.ok ⟨delegation.stake, 0⟩

/-- The deactivation walk (`delegation.ts` lines 131-160): starting
from the entry found at the deactivation epoch, subtract the
per-epoch share, clamping at zero, and stop on a zero cluster-wide
deactivating total, on reaching the target epoch, or on a missing
history entry. -/
def deactivationLoop (targetEpoch : ℤ) (stakeHistory : List StakeHistoryEntry)
    (currentEpoch : ℤ) (entry : StakeHistoryEntry)
    (currentEffectiveStake : ℤ) : Except Unit ℤ :=
  if entry.deactivating = 0 then Except.ok currentEffectiveStake
  else
    match stakeShareDelta currentEffectiveStake entry.deactivating entry.effective with
    | none => Except.error ()
    | some newlyNotEffectiveStake =>
      if currentEffectiveStake - newlyNotEffectiveStake ≤ 0 then Except.ok 0
      else if targetEpoch ≤ currentEpoch + 1 then
        Except.ok (currentEffectiveStake - newlyNotEffectiveStake)
      else
        match getStakeHistoryEntry (currentEpoch + 1) stakeHistory with
        | none => Except.ok (currentEffectiveStake - newlyNotEffectiveStake)
        | some nextEntry =>
          deactivationLoop targetEpoch stakeHistory (currentEpoch + 1) nextEntry
            (currentEffectiveStake - newlyNotEffectiveStake)
termination_by (targetEpoch - currentEpoch).toNat
decreasing_by omega

/-- The engine (`getStakeActivatingAndDeactivating`, `delegation.ts`
lines 98-175): phase A, then the deactivation phase on top of it. -/
def getStakeActivatingAndDeactivating (delegation : Delegation) (targetEpoch : ℤ)
    (stakeHistory : List StakeHistoryEntry) :
    Except Unit StakeActivatingAndDeactivating :=
  match getStakeAndActivating delegation targetEpoch stakeHistory with
  | Except.error e => Except.error e
  | Except.ok ea =>
    if targetEpoch < delegation.deactivationEpoch then
      Except.ok ⟨ea.effective, ea.activating, 0⟩
    else if targetEpoch = delegation.deactivationEpoch then
      Except.ok ⟨ea.effective, 0, ea.effective⟩
    else
      match getStakeHistoryEntry delegation.deactivationEpoch stakeHistory with
      | some entry =>
        match deactivationLoop targetEpoch stakeHistory delegation.deactivationEpoch
            entry ea.effective with
        | Except.error e => Except.error e
        | Except.ok currentEffectiveStake =>
          Except.ok ⟨currentEffectiveStake, 0, currentEffectiveStake⟩
      | none => Except.ok ⟨0, 0, 0⟩

/-- The decoded stake account fields used by the resolver
(`stakeAccountCodec` in `stake.ts` and the fields read in `rpc.ts`):
total lamports, the `u32` discriminant (0 uninitialized, 1
initialized without delegation, 2 delegated), the rent-exempt
reserve, and the delegation record. -/
structure StakeAccountLite where
  lamports : ℤ
  discriminant : ℕ
  rentExemptReserve : ℤ
  delegation : Delegation
deriving DecidableEq, Repr

/-- Result of the resolver (`StakeActivation`, `rpc.ts` lines 12-16). -/
structure StakeActivation where
  status : String
  active : ℤ
  inactive : ℤ
deriving DecidableEq, Repr

/-- The resolver (`getStakeActivation`, `rpc.ts` lines 18-84), after
the account and history fetches: throws on discriminant 0, reports a
non-delegated account as inactive, and otherwise maps the engine
result to a status and an active/inactive lamport split. -/
def getStakeActivation (account : StakeAccountLite) (epoch : ℤ)
    (stakeHistory : List StakeHistoryEntry) : Except Unit StakeActivation :=
  if account.discriminant = 0 then Except.error ()
  else if account.discriminant = 1 then
    Except.ok ⟨"inactive", 0, account.lamports - account.rentExemptReserve⟩
  else
    match getStakeActivatingAndDeactivating account.delegation epoch stakeHistory with
    | Except.error e => Except.error e
    | Except.ok r =>
      Except.ok
        ⟨if 0 < r.deactivating then "deactivating"
          else if 0 < r.activating then "activating"
          else if 0 < r.effective then "active"
          else "inactive",
         r.effective,
         account.lamports - r.effective - account.rentExemptReserve⟩


/-- Iteration-count-bounded version of `activationLoop`, used to state
that the walk terminates within `targetEpoch - currentEpoch` steps:
`none` means the iteration budget was exhausted. -/
def activationLoopFuel (stake deactivationEpoch targetEpoch : ℤ)
    (stakeHistory : List StakeHistoryEntry) :
    ℕ → ℤ → StakeHistoryEntry → ℤ → Option (Except Unit ℤ)
  | 0, _, _, _ => none
  | Nat.succ fuel, currentEpoch, entry, currentEffectiveStake =>
    match stakeShareDelta (stake - currentEffectiveStake) entry.activating entry.effective with
    | none => some (Except.error ())
    | some newlyEffectiveStake =>
      if stake ≤ currentEffectiveStake + newlyEffectiveStake then some (Except.ok stake)
      else if targetEpoch ≤ currentEpoch + 1 ∨ deactivationEpoch ≤ currentEpoch + 1 then
        some (Except.ok (currentEffectiveStake + newlyEffectiveStake))
      else
        match getStakeHistoryEntry (currentEpoch + 1) stakeHistory with
        | none => some (Except.ok (currentEffectiveStake + newlyEffectiveStake))
        | some nextEntry =>
          activationLoopFuel stake deactivationEpoch targetEpoch stakeHistory fuel
            (currentEpoch + 1) nextEntry (currentEffectiveStake + newlyEffectiveStake)

/-- Iteration-count-bounded version of `deactivationLoop`. -/
def deactivationLoopFuel (targetEpoch : ℤ) (stakeHistory : List StakeHistoryEntry) :
    ℕ → ℤ → StakeHistoryEntry → ℤ → Option (Except Unit ℤ)
  | 0, _, _, _ => none
  | Nat.succ fuel, currentEpoch, entry, currentEffectiveStake =>
    if entry.deactivating = 0 then some (Except.ok currentEffectiveStake)
    else
      match stakeShareDelta currentEffectiveStake entry.deactivating entry.effective with
      | none => some (Except.error ())
      | some newlyNotEffectiveStake =>
        if currentEffectiveStake - newlyNotEffectiveStake ≤ 0 then some (Except.ok 0)
        else if targetEpoch ≤ currentEpoch + 1 then
          some (Except.ok (currentEffectiveStake - newlyNotEffectiveStake))
        else
          match getStakeHistoryEntry (currentEpoch + 1) stakeHistory with
          | none => some (Except.ok (currentEffectiveStake - newlyNotEffectiveStake))
          | some nextEntry =>
            deactivationLoopFuel targetEpoch stakeHistory fuel (currentEpoch + 1) nextEntry
              (currentEffectiveStake - newlyNotEffectiveStake)

theorem ratLog2_le (x : ℚ) (hx : 0 < x) : (2 : ℚ) ^ ratLog2 x ≤ x := by
  unfold ratLog2
  simp only []
  split
  · assumption
  · have hnum : 0 < x.num := Rat.num_pos.mpr hx
    have ha : x.num.natAbs ≠ 0 := by
      simpa using hnum.ne'
    have hb : x.den ≠ 0 := x.den_nz
    have hb0 : (0 : ℚ) < (x.den : ℚ) := by
      exact_mod_cast Nat.pos_of_ne_zero hb
    have h1 : (2 : ℚ) ^ ((Nat.log2 x.num.natAbs : ℤ)) ≤ (x.num.natAbs : ℚ) := by
      rw [zpow_natCast]
      exact_mod_cast Nat.log2_self_le ha
    have h2 : (x.den : ℚ) ≤ (2 : ℚ) ^ ((Nat.log2 x.den : ℤ) + 1) := by
      rw [show (Nat.log2 x.den : ℤ) + 1 = ((Nat.log2 x.den + 1 : ℕ) : ℤ) by push_cast; ring,
        zpow_natCast]
      exact_mod_cast Nat.lt_log2_self.le
    have key : (2 : ℚ) ^ ((Nat.log2 x.num.natAbs : ℤ) - (Nat.log2 x.den : ℤ) - 1)
        ≤ (x.num.natAbs : ℚ) / (x.den : ℚ) := by
      have h3 : (2 : ℚ) ^ ((Nat.log2 x.num.natAbs : ℤ) - (Nat.log2 x.den : ℤ) - 1)
          = (2 : ℚ) ^ ((Nat.log2 x.num.natAbs : ℤ)) / (2 : ℚ) ^ ((Nat.log2 x.den : ℤ) + 1) := by
        rw [← zpow_sub₀ (by norm_num : (2 : ℚ) ≠ 0)]
        ring_nf
      rw [h3]
      exact div_le_div₀ (by positivity) h1 hb0 h2
    have hcast : (x.num.natAbs : ℚ) = (x.num : ℚ) := by
      rw [Int.cast_natAbs]
      exact_mod_cast abs_of_nonneg hnum.le
    calc (2 : ℚ) ^ ((Nat.log2 x.num.natAbs : ℤ) - (Nat.log2 x.den : ℤ) - 1)
        ≤ (x.num.natAbs : ℚ) / (x.den : ℚ) := key
      _ = x := by rw [hcast, Rat.num_div_den]

theorem roundHalfEven_ge_one (q : ℚ) (hq : 1 ≤ q) : 1 ≤ roundHalfEven q := by
  unfold roundHalfEven
  have hf : 1 ≤ ⌊q⌋ := by
    rw [Int.le_floor]
    exact_mod_cast hq
  simp only []
  split
  · exact hf
  · split
    · omega
    · split <;> omega

theorem posRound_pos (x : ℚ) (hx : 0 < x) : 0 < posRound x := by
  unfold posRound
  have he : (0 : ℚ) < 2 ^ (ratLog2 x - 52) := by positivity
  have h52 : (2 : ℚ) ^ (52 : ℤ) ≤ x / 2 ^ (ratLog2 x - 52) := by
    rw [le_div_iff₀ he, ← zpow_add₀ (by norm_num : (2 : ℚ) ≠ 0)]
    have : (52 : ℤ) + (ratLog2 x - 52) = ratLog2 x := by ring
    rw [this]
    exact ratLog2_le x hx
  have h1 : (1 : ℚ) ≤ x / 2 ^ (ratLog2 x - 52) := by
    refine le_trans ?_ h52
    norm_num
  have hm : 1 ≤ roundHalfEven (x / 2 ^ (ratLog2 x - 52)) := roundHalfEven_ge_one _ h1
  have hm' : (0 : ℚ) < (roundHalfEven (x / 2 ^ (ratLog2 x - 52)) : ℚ) := by
    exact_mod_cast lt_of_lt_of_le zero_lt_one (by exact_mod_cast hm)
  exact mul_pos hm' he

theorem roundToDouble_pos (x : ℚ) (hx : 0 < x) : 0 < roundToDouble x := by
  unfold roundToDouble
  rw [if_neg hx.ne', if_neg (not_lt.mpr hx.le)]
  exact posRound_pos x hx

theorem roundToDouble_eq_zero_iff (x : ℚ) : roundToDouble x = 0 ↔ x = 0 := by
  constructor
  · intro h
    by_contra hx
    rcases lt_trichotomy x 0 with hlt | heq | hgt
    · have hp : 0 < posRound (-x) := posRound_pos (-x) (by linarith)
      rw [roundToDouble, if_neg hx, if_pos hlt] at h
      linarith
    · exact hx heq
    · have hp := roundToDouble_pos x hgt
      linarith
  · intro h
    rw [h, roundToDouble]
    simp

theorem toNumber_ne_zero (n : ℤ) (hn : n ≠ 0) : toNumber n ≠ 0 := by
  intro h
  rw [toNumber, roundToDouble_eq_zero_iff] at h
  exact hn (by exact_mod_cast h)

theorem stakeShareDelta_one_le (a b c δ : ℤ) (h : stakeShareDelta a b c = some δ) :
    1 ≤ δ := by
  unfold stakeShareDelta at h
  simp only [] at h
  split at h
  · exact absurd h (by simp)
  · simp only [Option.some.injEq] at h
    rw [← h]
    exact le_max_left _ _

theorem stakeShareDelta_zero_num (b c : ℤ) (hb : b ≠ 0) :
    stakeShareDelta 0 b c = some 1 := by
  unfold stakeShareDelta
  simp only []
  rw [if_neg (toNumber_ne_zero b hb)]
  have h0 : toNumber 0 = 0 := by simp [toNumber, roundToDouble]
  have hr : roundToDouble 0 = 0 := by simp [roundToDouble]
  rw [h0, zero_div, hr, zero_mul, hr]
  norm_num [jsRound]

theorem getStakeHistoryEntry_eq_none (ep : ℤ) (hist : List StakeHistoryEntry)
    (hh : ∀ e ∈ hist, e.epoch ≠ ep) : getStakeHistoryEntry ep hist = none := by
  induction hist with
  | nil => rfl
  | cons e rest ih =>
    show (if e.epoch = ep then some e else getStakeHistoryEntry ep rest) = none
    rw [if_neg (hh e (by simp))]
    exact ih (fun x hx => hh x (by simp [hx]))

theorem activationLoop_eq_error (stake de t : ℤ) (hist : List StakeHistoryEntry)
    (ce : ℤ) (entry : StakeHistoryEntry) (cur : ℤ)
    (h1 : stakeShareDelta (stake - cur) entry.activating entry.effective = none) :
    activationLoop stake de t hist ce entry cur = Except.error () := by
  rw [activationLoop, h1]

theorem activationLoop_eq_clamp (stake de t : ℤ) (hist : List StakeHistoryEntry)
    (ce : ℤ) (entry : StakeHistoryEntry) (cur δ : ℤ)
    (h1 : stakeShareDelta (stake - cur) entry.activating entry.effective = some δ)
    (h2 : stake ≤ cur + δ) :
    activationLoop stake de t hist ce entry cur = Except.ok stake := by
  rw [activationLoop, h1]
  exact if_pos h2

theorem activationLoop_eq_stop (stake de t : ℤ) (hist : List StakeHistoryEntry)
    (ce : ℤ) (entry : StakeHistoryEntry) (cur δ : ℤ)
    (h1 : stakeShareDelta (stake - cur) entry.activating entry.effective = some δ)
    (h2 : ¬stake ≤ cur + δ) (h3 : t ≤ ce + 1 ∨ de ≤ ce + 1) :
    activationLoop stake de t hist ce entry cur = Except.ok (cur + δ) := by
  rw [activationLoop, h1]
  exact (if_neg h2).trans (if_pos h3)

theorem activationLoop_eq_gap (stake de t : ℤ) (hist : List StakeHistoryEntry)
    (ce : ℤ) (entry : StakeHistoryEntry) (cur δ : ℤ)
    (h1 : stakeShareDelta (stake - cur) entry.activating entry.effective = some δ)
    (h2 : ¬stake ≤ cur + δ) (h3 : ¬(t ≤ ce + 1 ∨ de ≤ ce + 1))
    (h4 : getStakeHistoryEntry (ce + 1) hist = none) :
    activationLoop stake de t hist ce entry cur = Except.ok (cur + δ) := by
  rw [activationLoop, h1]
  exact (if_neg h2).trans ((if_neg h3).trans (by rw [h4]))

theorem activationLoop_eq_step (stake de t : ℤ) (hist : List StakeHistoryEntry)
    (ce : ℤ) (entry : StakeHistoryEntry) (cur δ : ℤ) (e2 : StakeHistoryEntry)
    (h1 : stakeShareDelta (stake - cur) entry.activating entry.effective = some δ)
    (h2 : ¬stake ≤ cur + δ) (h3 : ¬(t ≤ ce + 1 ∨ de ≤ ce + 1))
    (h4 : getStakeHistoryEntry (ce + 1) hist = some e2) :
    activationLoop stake de t hist ce entry cur =
      activationLoop stake de t hist (ce + 1) e2 (cur + δ) := by
  rw [activationLoop, h1]
  exact (if_neg h2).trans ((if_neg h3).trans (by rw [h4]))

theorem activationLoop_start_le (stake de t : ℤ) (hist : List StakeHistoryEntry) :
    ∀ ce entry cur, cur ≤ stake → ∀ v,
      activationLoop stake de t hist ce entry cur = Except.ok v → cur ≤ v := by
  intro ce entry cur
  induction ce, entry, cur using activationLoop.induct stake de t hist with
  | case1 ce entry cur h1 =>
    intro hcs v hv
    rw [activationLoop_eq_error stake de t hist ce entry cur h1] at hv
    exact absurd hv (by simp)
  | case2 ce entry cur δ h1 h2 =>
    intro hcs v hv
    rw [activationLoop_eq_clamp stake de t hist ce entry cur δ h1 h2] at hv
    simp only [Except.ok.injEq] at hv
    omega
  | case3 ce entry cur δ h1 h2 h3 =>
    intro hcs v hv
    rw [activationLoop_eq_stop stake de t hist ce entry cur δ h1 h2 h3] at hv
    simp only [Except.ok.injEq] at hv
    have := stakeShareDelta_one_le _ _ _ _ h1
    omega
  | case4 ce entry cur δ h1 h2 h3 h4 =>
    intro hcs v hv
    rw [activationLoop_eq_gap stake de t hist ce entry cur δ h1 h2 h3 h4] at hv
    simp only [Except.ok.injEq] at hv
    have := stakeShareDelta_one_le _ _ _ _ h1
    omega
  | case5 ce entry cur δ h1 h2 h3 e2 h4 ih =>
    intro hcs v hv
    rw [activationLoop_eq_step stake de t hist ce entry cur δ e2 h1 h2 h3 h4] at hv
    have := stakeShareDelta_one_le _ _ _ _ h1
    have := ih (by omega) v hv
    omega

theorem activationLoop_mono (stake de t1 t2 : ℤ) (hist : List StakeHistoryEntry)
    (h12 : t1 ≤ t2) :
    ∀ ce entry cur, cur ≤ stake → ∀ v1 v2,
      activationLoop stake de t1 hist ce entry cur = Except.ok v1 →
      activationLoop stake de t2 hist ce entry cur = Except.ok v2 → v1 ≤ v2 := by
  intro ce entry cur
  induction ce, entry, cur using activationLoop.induct stake de t1 hist with
  | case1 ce entry cur h1 =>
    intro hcs v1 v2 hv1 hv2
    rw [activationLoop_eq_error stake de t1 hist ce entry cur h1] at hv1
    exact absurd hv1 (by simp)
  | case2 ce entry cur δ h1 h2 =>
    intro hcs v1 v2 hv1 hv2
    rw [activationLoop_eq_clamp stake de t1 hist ce entry cur δ h1 h2] at hv1
    rw [activationLoop_eq_clamp stake de t2 hist ce entry cur δ h1 h2] at hv2
    simp only [Except.ok.injEq] at hv1 hv2
    omega
  | case3 ce entry cur δ h1 h2 h3 =>
    intro hcs v1 v2 hv1 hv2
    rw [activationLoop_eq_stop stake de t1 hist ce entry cur δ h1 h2 h3] at hv1
    simp only [Except.ok.injEq] at hv1
    by_cases h4 : t2 ≤ ce + 1 ∨ de ≤ ce + 1
    · rw [activationLoop_eq_stop stake de t2 hist ce entry cur δ h1 h2 h4] at hv2
      simp only [Except.ok.injEq] at hv2
      omega
    · cases hld : getStakeHistoryEntry (ce + 1) hist with
      | none =>
        rw [activationLoop_eq_gap stake de t2 hist ce entry cur δ h1 h2 h4 hld] at hv2
        simp only [Except.ok.injEq] at hv2
        omega
      | some e2 =>
        rw [activationLoop_eq_step stake de t2 hist ce entry cur δ e2 h1 h2 h4 hld] at hv2
        have := activationLoop_start_le stake de t2 hist (ce + 1) e2 (cur + δ) (by omega) v2 hv2
        omega
  | case4 ce entry cur δ h1 h2 h3 h4 =>
    intro hcs v1 v2 hv1 hv2
    rw [activationLoop_eq_gap stake de t1 hist ce entry cur δ h1 h2 h3 h4] at hv1
    have h3b : ¬(t2 ≤ ce + 1 ∨ de ≤ ce + 1) := by omega
    rw [activationLoop_eq_gap stake de t2 hist ce entry cur δ h1 h2 h3b h4] at hv2
    simp only [Except.ok.injEq] at hv1 hv2
    omega
  | case5 ce entry cur δ h1 h2 h3 e2 h4 ih =>
    intro hcs v1 v2 hv1 hv2
    rw [activationLoop_eq_step stake de t1 hist ce entry cur δ e2 h1 h2 h3 h4] at hv1
    have h3b : ¬(t2 ≤ ce + 1 ∨ de ≤ ce + 1) := by omega
    rw [activationLoop_eq_step stake de t2 hist ce entry cur δ e2 h1 h2 h3b h4] at hv2
    exact ih (by omega) v1 v2 hv1 hv2

theorem deactivationLoop_eq_done (t : ℤ) (hist : List StakeHistoryEntry)
    (ce : ℤ) (entry : StakeHistoryEntry) (cur : ℤ) (h1 : entry.deactivating = 0) :
    deactivationLoop t hist ce entry cur = Except.ok cur := by
  rw [deactivationLoop]
  exact if_pos h1

theorem deactivationLoop_eq_error (t : ℤ) (hist : List StakeHistoryEntry)
    (ce : ℤ) (entry : StakeHistoryEntry) (cur : ℤ) (h1 : ¬entry.deactivating = 0)
    (h2 : stakeShareDelta cur entry.deactivating entry.effective = none) :
    deactivationLoop t hist ce entry cur = Except.error () := by
  rw [deactivationLoop]
  exact (if_neg h1).trans (by rw [h2])

theorem deactivationLoop_eq_clamp (t : ℤ) (hist : List StakeHistoryEntry)
    (ce : ℤ) (entry : StakeHistoryEntry) (cur δ : ℤ) (h1 : ¬entry.deactivating = 0)
    (h2 : stakeShareDelta cur entry.deactivating entry.effective = some δ)
    (h3 : cur - δ ≤ 0) :
    deactivationLoop t hist ce entry cur = Except.ok 0 := by
  rw [deactivationLoop]
  exact (if_neg h1).trans (by rw [h2]; exact if_pos h3)

theorem deactivationLoop_eq_stop (t : ℤ) (hist : List StakeHistoryEntry)
    (ce : ℤ) (entry : StakeHistoryEntry) (cur δ : ℤ) (h1 : ¬entry.deactivating = 0)
    (h2 : stakeShareDelta cur entry.deactivating entry.effective = some δ)
    (h3 : ¬cur - δ ≤ 0) (h4 : t ≤ ce + 1) :
    deactivationLoop t hist ce entry cur = Except.ok (cur - δ) := by
  rw [deactivationLoop]
  exact (if_neg h1).trans (by rw [h2]; exact (if_neg h3).trans (if_pos h4))

theorem deactivationLoop_eq_gap (t : ℤ) (hist : List StakeHistoryEntry)
    (ce : ℤ) (entry : StakeHistoryEntry) (cur δ : ℤ) (h1 : ¬entry.deactivating = 0)
    (h2 : stakeShareDelta cur entry.deactivating entry.effective = some δ)
    (h3 : ¬cur - δ ≤ 0) (h4 : ¬t ≤ ce + 1)
    (h5 : getStakeHistoryEntry (ce + 1) hist = none) :
    deactivationLoop t hist ce entry cur = Except.ok (cur - δ) := by
  rw [deactivationLoop]
  exact (if_neg h1).trans (by rw [h2]; exact (if_neg h3).trans ((if_neg h4).trans (by rw [h5])))

theorem deactivationLoop_eq_step (t : ℤ) (hist : List StakeHistoryEntry)
    (ce : ℤ) (entry : StakeHistoryEntry) (cur δ : ℤ) (e2 : StakeHistoryEntry)
    (h1 : ¬entry.deactivating = 0)
    (h2 : stakeShareDelta cur entry.deactivating entry.effective = some δ)
    (h3 : ¬cur - δ ≤ 0) (h4 : ¬t ≤ ce + 1)
    (h5 : getStakeHistoryEntry (ce + 1) hist = some e2) :
    deactivationLoop t hist ce entry cur = deactivationLoop t hist (ce + 1) e2 (cur - δ) := by
  rw [deactivationLoop]
  exact (if_neg h1).trans (by rw [h2]; exact (if_neg h3).trans ((if_neg h4).trans (by rw [h5])))

theorem deactivationLoop_zero (t : ℤ) (hist : List StakeHistoryEntry)
    (ce : ℤ) (entry : StakeHistoryEntry) :
    deactivationLoop t hist ce entry 0 = Except.ok 0 := by
  by_cases h1 : entry.deactivating = 0
  · exact deactivationLoop_eq_done t hist ce entry 0 h1
  · exact deactivationLoop_eq_clamp t hist ce entry 0 1 h1
      (stakeShareDelta_zero_num entry.deactivating entry.effective h1) (by norm_num)

theorem getStakeAndActivating_shape (d : Delegation) (t : ℤ) (hist : List StakeHistoryEntry)
    (ea : EffectiveAndActivating) (h : getStakeAndActivating d t hist = Except.ok ea) :
    ea.effective + ea.activating = d.stake ∨ (ea.effective = 0 ∧ ea.activating = 0) := by
  unfold getStakeAndActivating at h
  split at h
  · simp only [Except.ok.injEq] at h
    right
    rw [← h]
    exact ⟨rfl, rfl⟩
  · split at h
    · simp only [Except.ok.injEq] at h
      left
      rw [← h]
      show (0 : ℤ) + d.stake = d.stake
      ring
    · split at h
      · simp only [Except.ok.injEq] at h
        right
        rw [← h]
        exact ⟨rfl, rfl⟩
      · split at h
        · split at h
          · exact absurd h (by simp)
          · simp only [Except.ok.injEq] at h
            left
            rw [← h]
            show _ + (d.stake - _) = d.stake
            ring
        · simp only [Except.ok.injEq] at h
          left
          rw [← h]
          show d.stake + (0 : ℤ) = d.stake
          ring

theorem getStakeAndActivating_nonneg (d : Delegation) (t : ℤ) (hist : List StakeHistoryEntry)
    (ea : EffectiveAndActivating) (hstake : 0 ≤ d.stake)
    (h : getStakeAndActivating d t hist = Except.ok ea) : 0 ≤ ea.effective := by
  unfold getStakeAndActivating at h
  split at h
  · simp only [Except.ok.injEq] at h
    rw [← h]
  · split at h
    · simp only [Except.ok.injEq] at h
      rw [← h]
    · split at h
      · simp only [Except.ok.injEq] at h
        rw [← h]
      · split at h
        · rename_i entry heqlk
          split at h
          · exact absurd h (by simp)
          · rename_i v heqloop
            simp only [Except.ok.injEq] at h
            rw [← h]
            exact activationLoop_start_le d.stake d.deactivationEpoch t hist
              d.activationEpoch entry 0 hstake v heqloop
        · simp only [Except.ok.injEq] at h
          rw [← h]
          exact hstake

theorem getStakeAndActivating_mono (d : Delegation) (t1 t2 : ℤ)
    (hist : List StakeHistoryEntry) (ea1 ea2 : EffectiveAndActivating)
    (hstake : 0 ≤ d.stake) (h12 : t1 ≤ t2)
    (h1 : getStakeAndActivating d t1 hist = Except.ok ea1)
    (h2 : getStakeAndActivating d t2 hist = Except.ok ea2) :
    ea1.effective ≤ ea2.effective := by
  by_cases had : d.activationEpoch = d.deactivationEpoch
  · have he1 : ea1.effective = 0 := by
      unfold getStakeAndActivating at h1
      rw [if_pos had] at h1
      simp only [Except.ok.injEq] at h1
      rw [← h1]
    rw [he1]
    exact getStakeAndActivating_nonneg d t2 hist ea2 hstake h2
  · rcases lt_trichotomy t1 d.activationEpoch with hlt | heq | hgt
    · have he1 : ea1.effective = 0 := by
        unfold getStakeAndActivating at h1
        rw [if_neg had, if_neg (by omega : ¬t1 = d.activationEpoch), if_pos hlt] at h1
        simp only [Except.ok.injEq] at h1
        rw [← h1]
      rw [he1]
      exact getStakeAndActivating_nonneg d t2 hist ea2 hstake h2
    · have he1 : ea1.effective = 0 := by
        unfold getStakeAndActivating at h1
        rw [if_neg had, if_pos heq] at h1
        simp only [Except.ok.injEq] at h1
        rw [← h1]
      rw [he1]
      exact getStakeAndActivating_nonneg d t2 hist ea2 hstake h2
    · have hgt2 : d.activationEpoch < t2 := lt_of_lt_of_le hgt h12
      unfold getStakeAndActivating at h1 h2
      rw [if_neg had, if_neg (by omega : ¬t1 = d.activationEpoch),
        if_neg (by omega : ¬t1 < d.activationEpoch)] at h1
      rw [if_neg had, if_neg (by omega : ¬t2 = d.activationEpoch),
        if_neg (by omega : ¬t2 < d.activationEpoch)] at h2
      cases hlk : getStakeHistoryEntry d.activationEpoch hist with
      | none =>
        rw [hlk] at h1 h2
        simp only [Except.ok.injEq] at h1 h2
        rw [← h1, ← h2]
      | some entry =>
        rw [hlk] at h1 h2
        simp only [] at h1 h2
        cases hl1 : activationLoop d.stake d.deactivationEpoch t1 hist
            d.activationEpoch entry 0 with
        | error e =>
          rw [hl1] at h1
          exact absurd h1 (by simp)
        | ok v1 =>
          rw [hl1] at h1
          cases hl2 : activationLoop d.stake d.deactivationEpoch t2 hist
              d.activationEpoch entry 0 with
          | error e =>
            rw [hl2] at h2
            exact absurd h2 (by simp)
          | ok v2 =>
            rw [hl2] at h2
            simp only [Except.ok.injEq] at h1 h2
            rw [← h1, ← h2]
            show v1 ≤ v2
            exact activationLoop_mono d.stake d.deactivationEpoch t1 t2 hist h12
              d.activationEpoch entry 0 hstake v1 v2 hl1 hl2

theorem activationLoopFuel_spec (stake de t : ℤ) (hist : List StakeHistoryEntry) :
    ∀ (fuel : ℕ) (ce : ℤ) (entry : StakeHistoryEntry) (cur : ℤ),
      (t - ce).toNat < fuel →
      activationLoopFuel stake de t hist fuel ce entry cur =
        some (activationLoop stake de t hist ce entry cur) := by
  intro fuel
  induction fuel with
  | zero =>
    intro ce entry cur hf
    omega
  | succ n ih =>
    intro ce entry cur hf
    cases hδ : stakeShareDelta (stake - cur) entry.activating entry.effective with
    | none =>
      rw [activationLoop_eq_error stake de t hist ce entry cur hδ]
      simp [activationLoopFuel, hδ]
    | some δ =>
      by_cases h2 : stake ≤ cur + δ
      · rw [activationLoop_eq_clamp stake de t hist ce entry cur δ hδ h2]
        simp only [activationLoopFuel, hδ]
        rw [if_pos h2]
      · by_cases h3 : t ≤ ce + 1 ∨ de ≤ ce + 1
        · rw [activationLoop_eq_stop stake de t hist ce entry cur δ hδ h2 h3]
          simp only [activationLoopFuel, hδ]
          rw [if_neg h2, if_pos h3]
        · cases hlk : getStakeHistoryEntry (ce + 1) hist with
          | none =>
            rw [activationLoop_eq_gap stake de t hist ce entry cur δ hδ h2 h3 hlk]
            simp only [activationLoopFuel, hδ]
            rw [if_neg h2, if_neg h3, hlk]
          | some e2 =>
            rw [activationLoop_eq_step stake de t hist ce entry cur δ e2 hδ h2 h3 hlk]
            have hstep : activationLoopFuel stake de t hist (n + 1) ce entry cur =
                activationLoopFuel stake de t hist n (ce + 1) e2 (cur + δ) := by
              simp only [activationLoopFuel, hδ]
              rw [if_neg h2, if_neg h3, hlk]
            rw [hstep]
            exact ih (ce + 1) e2 (cur + δ) (by omega)

theorem deactivationLoopFuel_spec (t : ℤ) (hist : List StakeHistoryEntry) :
    ∀ (fuel : ℕ) (ce : ℤ) (entry : StakeHistoryEntry) (cur : ℤ),
      (t - ce).toNat < fuel →
      deactivationLoopFuel t hist fuel ce entry cur =
        some (deactivationLoop t hist ce entry cur) := by
  intro fuel
  induction fuel with
  | zero =>
    intro ce entry cur hf
    omega
  | succ n ih =>
    intro ce entry cur hf
    by_cases h1 : entry.deactivating = 0
    · rw [deactivationLoop_eq_done t hist ce entry cur h1]
      simp only [deactivationLoopFuel]
      rw [if_pos h1]
    · cases hδ : stakeShareDelta cur entry.deactivating entry.effective with
      | none =>
        rw [deactivationLoop_eq_error t hist ce entry cur h1 hδ]
        simp only [deactivationLoopFuel, hδ]
        rw [if_neg h1]
      | some δ =>
        by_cases h3 : cur - δ ≤ 0
        · rw [deactivationLoop_eq_clamp t hist ce entry cur δ h1 hδ h3]
          simp only [deactivationLoopFuel, hδ]
          rw [if_neg h1, if_pos h3]
        · by_cases h4 : t ≤ ce + 1
          · rw [deactivationLoop_eq_stop t hist ce entry cur δ h1 hδ h3 h4]
            simp only [deactivationLoopFuel, hδ]
            rw [if_neg h1, if_neg h3, if_pos h4]
          · cases hlk : getStakeHistoryEntry (ce + 1) hist with
            | none =>
              rw [deactivationLoop_eq_gap t hist ce entry cur δ h1 hδ h3 h4 hlk]
              simp only [deactivationLoopFuel, hδ]
              rw [if_neg h1, if_neg h3, if_neg h4, hlk]
            | some e2 =>
              rw [deactivationLoop_eq_step t hist ce entry cur δ e2 h1 hδ h3 h4 hlk]
              have hstep : deactivationLoopFuel t hist (n + 1) ce entry cur =
                  deactivationLoopFuel t hist n (ce + 1) e2 (cur - δ) := by
                simp only [deactivationLoopFuel, hδ]
                rw [if_neg h1, if_neg h3, if_neg h4, hlk]
              rw [hstep]
              exact ih (ce + 1) e2 (cur - δ) (by omega)

set_option maxRecDepth 4000 in
/-- Helper evaluation: the per-epoch share for the multi-epoch activation
scenario (stake, cluster effective and cluster activating all 10^15)
is exactly nine percent of the stake. -/
theorem delta_multi_epoch :
    stakeShareDelta (10 ^ 15 - 0) (10 ^ 15) (10 ^ 15) = some (9 * 10 ^ 13) := by
  norm_num [stakeShareDelta, toNumber, roundToDouble, posRound, ratLog2, roundHalfEven,
    jsRound, WARMUP_COOLDOWN_RATE, Nat.log2]

/-- Claim C2: for every delegation, target epoch and history table on
which the engine returns a result, the returned activating and
deactivating amounts are never both nonzero. -/
theorem engine_not_both (d : Delegation) (t : ℤ) (hist : List StakeHistoryEntry)
    (r : StakeActivatingAndDeactivating)
    (h : getStakeActivatingAndDeactivating d t hist = Except.ok r) :
    r.activating = 0 ∨ r.deactivating = 0 := by
  unfold getStakeActivatingAndDeactivating at h
  split at h
  · exact absurd h (by simp)
  · split at h
    · simp only [Except.ok.injEq] at h
      right
      rw [← h]
    · split at h
      · simp only [Except.ok.injEq] at h
        left
        rw [← h]
      · split at h
        · split at h
          · exact absurd h (by simp)
          · simp only [Except.ok.injEq] at h
            left
            rw [← h]
        · simp only [Except.ok.injEq] at h
          left
          rw [← h]

/-- Claim C1 (amended): whenever the engine returns a result whose
deactivating amount is 0, either effective + activating equals the
delegated stake, or effective and activating are both 0 (the latter
occurs exactly in the not-yet-enabled, instantly-reversed and
fully-deactivated cases, which the original claim wrongly included
in the sum identity). -/
theorem engine_sum_amended (d : Delegation) (t : ℤ) (hist : List StakeHistoryEntry)
    (r : StakeActivatingAndDeactivating)
    (h : getStakeActivatingAndDeactivating d t hist = Except.ok r)
    (hdz : r.deactivating = 0) :
    r.effective + r.activating = d.stake ∨ (r.effective = 0 ∧ r.activating = 0) := by
  unfold getStakeActivatingAndDeactivating at h
  split at h
  · exact absurd h (by simp)
  · rename_i ea heq
    split at h
    · simp only [Except.ok.injEq] at h
      have hs := getStakeAndActivating_shape d t hist ea heq
      rw [← h]
      rcases hs with hs | hs
      · left
        exact hs
      · right
        exact hs
    · split at h
      · simp only [Except.ok.injEq] at h
        right
        rw [← h] at hdz ⊢
        exact ⟨hdz, rfl⟩
      · split at h
        · rename_i entry heqlk
          split at h
          · exact absurd h (by simp)
          · simp only [Except.ok.injEq] at h
            right
            rw [← h] at hdz ⊢
            exact ⟨hdz, rfl⟩
        · simp only [Except.ok.injEq] at h
          right
          rw [← h]
          exact ⟨rfl, rfl⟩

/-- Claim C3: for every delegation with activationEpoch equal to
deactivationEpoch, every target epoch, and every history table, the
engine returns effective = 0, activating = 0 and deactivating = 0. -/
theorem engine_instant (d : Delegation) (t : ℤ) (hist : List StakeHistoryEntry)
    (had : d.activationEpoch = d.deactivationEpoch) :
    getStakeActivatingAndDeactivating d t hist = Except.ok ⟨0, 0, 0⟩ := by
  have hpa : getStakeAndActivating d t hist = Except.ok ⟨0, 0⟩ := by
    unfold getStakeAndActivating
    rw [if_pos had]
  unfold getStakeActivatingAndDeactivating
  rw [hpa]
  simp only []
  split
  · rfl
  · split
    · rfl
    · split
      · rename_i entry heqlk
        rw [deactivationLoop_zero t hist d.deactivationEpoch entry]
      · rfl

/-- Claim C4: for a fixed delegation (with unsigned stake) and history
table, and target epochs t1 le t2 both strictly below the
deactivation epoch on which the engine returns results, the effective
amount at t1 is at most the effective amount at t2. -/
theorem engine_effective_monotone (d : Delegation) (hist : List StakeHistoryEntry)
    (t1 t2 : ℤ) (r1 r2 : StakeActivatingAndDeactivating)
    (hstake : 0 ≤ d.stake) (h12 : t1 ≤ t2) (ht2 : t2 < d.deactivationEpoch)
    (h1 : getStakeActivatingAndDeactivating d t1 hist = Except.ok r1)
    (h2 : getStakeActivatingAndDeactivating d t2 hist = Except.ok r2) :
    r1.effective ≤ r2.effective := by
  have ht1 : t1 < d.deactivationEpoch := lt_of_le_of_lt h12 ht2
  unfold getStakeActivatingAndDeactivating at h1 h2
  cases hpa1 : getStakeAndActivating d t1 hist with
  | error e =>
    rw [hpa1] at h1
    exact absurd h1 (by simp)
  | ok ea1 =>
    rw [hpa1] at h1
    simp only [] at h1
    rw [if_pos ht1] at h1
    simp only [Except.ok.injEq] at h1
    cases hpa2 : getStakeAndActivating d t2 hist with
    | error e =>
      rw [hpa2] at h2
      exact absurd h2 (by simp)
    | ok ea2 =>
      rw [hpa2] at h2
      simp only [] at h2
      rw [if_pos ht2] at h2
      simp only [Except.ok.injEq] at h2
      rw [← h1, ← h2]
      exact getStakeAndActivating_mono d t1 t2 hist ea1 ea2 hstake h12 hpa1 hpa2

/-- Claim C6: for every delegation with distinct activation and
deactivation epochs, every target epoch strictly between them, and
every history table with no entry at the activation epoch, the engine
returns effective = stake, activating = 0, deactivating = 0. -/
theorem engine_missing_activation_entry (d : Delegation) (t : ℤ)
    (hist : List StakeHistoryEntry) (hne : d.activationEpoch ≠ d.deactivationEpoch)
    (hlo : d.activationEpoch < t) (hhi : t < d.deactivationEpoch)
    (hh : ∀ e ∈ hist, e.epoch ≠ d.activationEpoch) :
    getStakeActivatingAndDeactivating d t hist = Except.ok ⟨d.stake, 0, 0⟩ := by
  have hlk : getStakeHistoryEntry d.activationEpoch hist = none :=
    getStakeHistoryEntry_eq_none d.activationEpoch hist hh
  have hpa : getStakeAndActivating d t hist = Except.ok ⟨d.stake, 0⟩ := by
    unfold getStakeAndActivating
    rw [if_neg hne, if_neg (by omega : ¬t = d.activationEpoch),
      if_neg (by omega : ¬t < d.activationEpoch), hlk]
  unfold getStakeActivatingAndDeactivating
  rw [hpa]
  simp only []
  rw [if_pos hhi]

/-- Claim C7: for a delegated stake account (discriminant neither 0
nor 1) and an engine result, the resolver maps the result to the
status by priority deactivating, activating, active, inactive, and
returns active = effective and
inactive = lamports - effective - rentExemptReserve. -/
theorem resolver_delegated (account : StakeAccountLite) (epoch : ℤ)
    (hist : List StakeHistoryEntry) (r : StakeActivatingAndDeactivating)
    (h0 : account.discriminant ≠ 0) (h1 : account.discriminant ≠ 1)
    (h : getStakeActivatingAndDeactivating account.delegation epoch hist = Except.ok r) :
    getStakeActivation account epoch hist = Except.ok
      ⟨if 0 < r.deactivating then "deactivating"
        else if 0 < r.activating then "activating"
        else if 0 < r.effective then "active"
        else "inactive",
       r.effective,
       account.lamports - r.effective - account.rentExemptReserve⟩ := by
  unfold getStakeActivation
  rw [if_neg h0, if_neg h1, h]

/-- Claim C10: on a delegation with positive stake, activation epoch
strictly between bounds, and a history entry at the activation epoch
whose cluster activating total is 0, the weight division is
non-finite and the BigInt conversion throws, so the engine fails with
an unguarded runtime error instead of returning a triple. -/
theorem engine_unguarded_throw :
    getStakeActivatingAndDeactivating ⟨[], 10, 0, 100, 0⟩ 5 [⟨0, 50, 0, 0⟩] =
      Except.error () := by
  have h0 : toNumber 0 = 0 := by simp [toNumber, roundToDouble]
  have hδ : stakeShareDelta (10 - 0) (0 : ℤ) (50 : ℤ) = none := by
    unfold stakeShareDelta
    simp only []
    rw [if_pos h0]
  have hloop : activationLoop 10 100 5 [⟨0, 50, 0, 0⟩] 0 ⟨0, 50, 0, 0⟩ 0 =
      Except.error () :=
    activationLoop_eq_error 10 100 5 [⟨0, 50, 0, 0⟩] 0 ⟨0, 50, 0, 0⟩ 0 hδ
  have hpa : getStakeAndActivating ⟨[], 10, 0, 100, 0⟩ 5 [⟨0, 50, 0, 0⟩] =
      Except.error () := by
    unfold getStakeAndActivating
    rw [if_neg (by decide), if_neg (by decide), if_neg (by decide)]
    have hlk : getStakeHistoryEntry ((⟨[], 10, 0, 100, 0⟩ : Delegation).activationEpoch)
        [⟨0, 50, 0, 0⟩] = some ⟨0, 50, 0, 0⟩ := by decide
    rw [hlk]
    simp only []
    rw [hloop]
  unfold getStakeActivatingAndDeactivating
  rw [hpa]

/-- Claim C9: for stake 10^15, activation at targetEpoch - 1, the u64
sentinel deactivation epoch, and a single history entry at
targetEpoch - 1 with effective, activating and deactivating totals
all 10^15, the engine returns effective = stake * 9 / 100 exactly,
the rest activating, and deactivating = 0, under double-precision
weight arithmetic with round-to-nearest. -/
theorem engine_multi_epoch_activation (t : ℤ) (ht : t < 18446744073709551615) :
    getStakeActivatingAndDeactivating ⟨[], 10 ^ 15, t - 1, 18446744073709551615, 0⟩ t
      [⟨t - 1, 10 ^ 15, 10 ^ 15, 10 ^ 15⟩] =
      Except.ok ⟨9 * 10 ^ 13, 10 ^ 15 - 9 * 10 ^ 13, 0⟩ := by
  have hδ : stakeShareDelta (10 ^ 15 - 0)
      ((⟨t - 1, 10 ^ 15, 10 ^ 15, 10 ^ 15⟩ : StakeHistoryEntry).activating)
      ((⟨t - 1, 10 ^ 15, 10 ^ 15, 10 ^ 15⟩ : StakeHistoryEntry).effective) =
      some (9 * 10 ^ 13) := delta_multi_epoch
  have hlk : getStakeHistoryEntry (t - 1) [⟨t - 1, 10 ^ 15, 10 ^ 15, 10 ^ 15⟩] =
      some ⟨t - 1, 10 ^ 15, 10 ^ 15, 10 ^ 15⟩ := by
    show (if (t - 1 : ℤ) = t - 1 then _ else _) = _
    rw [if_pos rfl]
  have hloop : activationLoop (10 ^ 15) 18446744073709551615 t
      [⟨t - 1, 10 ^ 15, 10 ^ 15, 10 ^ 15⟩] (t - 1) ⟨t - 1, 10 ^ 15, 10 ^ 15, 10 ^ 15⟩ 0 =
      Except.ok (0 + 9 * 10 ^ 13) :=
    activationLoop_eq_stop (10 ^ 15) 18446744073709551615 t
      [⟨t - 1, 10 ^ 15, 10 ^ 15, 10 ^ 15⟩] (t - 1) ⟨t - 1, 10 ^ 15, 10 ^ 15, 10 ^ 15⟩ 0
      (9 * 10 ^ 13) hδ (by norm_num) (Or.inl (by omega))
  have hpa : getStakeAndActivating ⟨[], 10 ^ 15, t - 1, 18446744073709551615, 0⟩ t
      [⟨t - 1, 10 ^ 15, 10 ^ 15, 10 ^ 15⟩] =
      Except.ok ⟨9 * 10 ^ 13, 10 ^ 15 - 9 * 10 ^ 13⟩ := by
    unfold getStakeAndActivating
    rw [if_neg (by omega : ¬(t - 1 : ℤ) = 18446744073709551615),
      if_neg (by omega : ¬t = (t - 1 : ℤ)), if_neg (by omega : ¬t < (t - 1 : ℤ)), hlk]
    simp only []
    rw [hloop]
    norm_num
  unfold getStakeActivatingAndDeactivating
  rw [hpa]
  simp only []
  rw [if_pos ht]

/-- Claim C5: in either phase, when the history entry for the next
epoch of the walk is missing while no other stop condition holds
(the clamp was not reached and neither the target epoch nor, in the
activation phase, the deactivation epoch was reached), the walk stops
and returns the accumulated value so far as a normal result, raising
no error. -/
theorem walk_gap_stops_quietly :
    (∀ (stake de t : ℤ) (hist : List StakeHistoryEntry) (ce : ℤ)
        (entry : StakeHistoryEntry) (cur δ : ℤ),
      stakeShareDelta (stake - cur) entry.activating entry.effective = some δ →
      ¬stake ≤ cur + δ → ¬(t ≤ ce + 1 ∨ de ≤ ce + 1) →
      getStakeHistoryEntry (ce + 1) hist = none →
      activationLoop stake de t hist ce entry cur = Except.ok (cur + δ)) ∧
    (∀ (t : ℤ) (hist : List StakeHistoryEntry) (ce : ℤ)
        (entry : StakeHistoryEntry) (cur δ : ℤ),
      ¬entry.deactivating = 0 →
      stakeShareDelta cur entry.deactivating entry.effective = some δ →
      ¬cur - δ ≤ 0 → ¬t ≤ ce + 1 →
      getStakeHistoryEntry (ce + 1) hist = none →
      deactivationLoop t hist ce entry cur = Except.ok (cur - δ)) := by
  constructor
  · intro stake de t hist ce entry cur δ h1 h2 h3 h4
    exact activationLoop_eq_gap stake de t hist ce entry cur δ h1 h2 h3 h4
  · intro t hist ce entry cur δ h1 h2 h3 h4 h5
    exact deactivationLoop_eq_gap t hist ce entry cur δ h1 h2 h3 h4 h5

theorem walk_gap_stops_quietly_witness :
    activationLoop 100 50 10 [] 5 ⟨5, 0, 10, 10⟩ 0 = Except.ok (0 + 1) ∧
    deactivationLoop 10 [] 5 ⟨5, 0, 10, 10⟩ 50 = Except.ok (50 - 1) := by
  constructor
  · exact walk_gap_stops_quietly.1 100 50 10 [] 5 ⟨5, 0, 10, 10⟩ 0 1
      (by norm_num [stakeShareDelta, toNumber, roundToDouble, posRound, ratLog2,
        roundHalfEven, jsRound, Nat.log2])
      (by omega) (by omega) rfl
  · exact walk_gap_stops_quietly.2 10 [] 5 ⟨5, 0, 10, 10⟩ 50 1
      (by decide)
      (by norm_num [stakeShareDelta, toNumber, roundToDouble, posRound, ratLog2,
        roundHalfEven, jsRound, Nat.log2])
      (by omega) (by omega) rfl

/-- Claim C8: both epoch walks terminate, and within an explicit
bound: run with any iteration budget exceeding
targetEpoch - currentEpoch, the fuel-indexed loops never exhaust the
budget and compute exactly the value of the loops themselves. -/
theorem engine_walks_bounded :
    (∀ (stake de t : ℤ) (hist : List StakeHistoryEntry) (fuel : ℕ) (ce : ℤ)
        (entry : StakeHistoryEntry) (cur : ℤ), (t - ce).toNat < fuel →
      activationLoopFuel stake de t hist fuel ce entry cur =
        some (activationLoop stake de t hist ce entry cur)) ∧
    (∀ (t : ℤ) (hist : List StakeHistoryEntry) (fuel : ℕ) (ce : ℤ)
        (entry : StakeHistoryEntry) (cur : ℤ), (t - ce).toNat < fuel →
      deactivationLoopFuel t hist fuel ce entry cur =
        some (deactivationLoop t hist ce entry cur)) :=
  ⟨fun stake de t hist fuel ce entry cur h =>
      activationLoopFuel_spec stake de t hist fuel ce entry cur h,
   fun t hist fuel ce entry cur h =>
      deactivationLoopFuel_spec t hist fuel ce entry cur h⟩

theorem engine_walks_bounded_witness :
    activationLoopFuel 0 0 0 [] 1 0 ⟨0, 0, 0, 0⟩ 0 =
      some (activationLoop 0 0 0 [] 0 ⟨0, 0, 0, 0⟩ 0) ∧
    deactivationLoopFuel 0 [] 1 0 ⟨0, 0, 0, 0⟩ 0 =
      some (deactivationLoop 0 [] 0 ⟨0, 0, 0, 0⟩ 0) :=
  ⟨engine_walks_bounded.1 0 0 0 [] 1 0 ⟨0, 0, 0, 0⟩ 0 (by decide),
   engine_walks_bounded.2 0 [] 1 0 ⟨0, 0, 0, 0⟩ 0 (by decide)⟩

/-- Claim C1, counterexample to the claim as stated: the delegation
with stake 1 and activationEpoch = deactivationEpoch = 0 at target
epoch 0 makes the engine return (0, 0, 0), whose deactivating is 0
while effective + activating = 0 differs from the stake 1. -/
theorem engine_sum_claim_counterexample :
    ¬ ∀ (r : StakeActivatingAndDeactivating),
        getStakeActivatingAndDeactivating ⟨[], 1, 0, 0, 0⟩ 0 [] = Except.ok r →
        r.deactivating = 0 →
        r.effective + r.activating = (⟨[], 1, 0, 0, 0⟩ : Delegation).stake := by
  intro hcl
  have h := hcl ⟨0, 0, 0⟩ (by rfl) rfl
  exact absurd h (by decide)

theorem engine_sum_amended_witness :
    (⟨10, 0, 0⟩ : StakeActivatingAndDeactivating).effective +
      (⟨10, 0, 0⟩ : StakeActivatingAndDeactivating).activating =
      (⟨[], 10, 0, 100, 0⟩ : Delegation).stake ∨
    ((⟨10, 0, 0⟩ : StakeActivatingAndDeactivating).effective = 0 ∧
      (⟨10, 0, 0⟩ : StakeActivatingAndDeactivating).activating = 0) :=
  engine_sum_amended ⟨[], 10, 0, 100, 0⟩ 1 [] ⟨10, 0, 0⟩ (by rfl) (by decide)

theorem engine_not_both_witness :
    (⟨10, 0, 0⟩ : StakeActivatingAndDeactivating).activating = 0 ∨
    (⟨10, 0, 0⟩ : StakeActivatingAndDeactivating).deactivating = 0 :=
  engine_not_both ⟨[], 10, 0, 100, 0⟩ 1 [] ⟨10, 0, 0⟩ (by rfl)

theorem engine_instant_witness :
    getStakeActivatingAndDeactivating ⟨[], 5, 3, 3, 0⟩ 7 [⟨3, 10, 10, 10⟩] =
      Except.ok ⟨0, 0, 0⟩ :=
  engine_instant ⟨[], 5, 3, 3, 0⟩ 7 [⟨3, 10, 10, 10⟩] (by decide)

theorem engine_effective_monotone_witness :
    (⟨10, 0, 0⟩ : StakeActivatingAndDeactivating).effective ≤
      (⟨10, 0, 0⟩ : StakeActivatingAndDeactivating).effective :=
  engine_effective_monotone ⟨[], 10, 0, 100, 0⟩ [] 1 2 ⟨10, 0, 0⟩ ⟨10, 0, 0⟩
    (by decide) (by decide) (by decide) (by rfl) (by rfl)

theorem engine_missing_activation_entry_witness :
    getStakeActivatingAndDeactivating ⟨[], 7, 1, 100, 0⟩ 2 [⟨5, 1, 1, 1⟩] =
      Except.ok ⟨7, 0, 0⟩ :=
  engine_missing_activation_entry ⟨[], 7, 1, 100, 0⟩ 2 [⟨5, 1, 1, 1⟩]
    (by decide) (by decide) (by decide) (by decide)

theorem resolver_delegated_witness :
    getStakeActivation ⟨1000, 2, 5, ⟨[], 10, 0, 0, 0⟩⟩ 0 [] = Except.ok
      ⟨if (0 : ℤ) < 0 then "deactivating"
        else if (0 : ℤ) < 0 then "activating"
        else if (0 : ℤ) < 0 then "active"
        else "inactive",
       0, 1000 - 0 - 5⟩ :=
  resolver_delegated ⟨1000, 2, 5, ⟨[], 10, 0, 0, 0⟩⟩ 0 [] ⟨0, 0, 0⟩
    (by decide) (by decide) (by rfl)

theorem engine_multi_epoch_activation_witness :
    getStakeActivatingAndDeactivating
      ⟨[], 10 ^ 15, 11 - 1, 18446744073709551615, 0⟩ 11
      [⟨11 - 1, 10 ^ 15, 10 ^ 15, 10 ^ 15⟩] =
      Except.ok ⟨9 * 10 ^ 13, 10 ^ 15 - 9 * 10 ^ 13, 0⟩ :=
  engine_multi_epoch_activation 11 (by decide)
